import Mathlib

/-!
Verification of the org-mode `OrgWriter` pretty-printer (`org/org.go`).

The Go writer walks a parsed document tree and serializes it back to
canonical org text.  We embed the node types and the writer shallowly:

* Go strings are modelled as Lean `String`; `len` (Go byte length) is
  modelled as `String.length` (character count), which agrees with the
  byte length on ASCII data.
* The writer's mutable `strings.Builder` is modelled by having every
  write function return the string it appends to the buffer.
* A Go `panic` aborts the render; write functions therefore return
  `Except String String`, with the panic message in the error.
* The Go `Node` interface is open: a value may be `nil` or of a type
  outside the known variant set.  The constructors `Node.null` and
  `Node.bad` model those two cases (`Node.bad` carries the `%#v`
  representation of the offending value used in the panic message).
-/

/-- Go `strings.Repeat s n`: `s` concatenated `n` times. -/
def goRepeat (s : String) : Nat → String
  | 0 => ""
  | n + 1 => s ++ goRepeat s n

/-- Go `strings.Split` on a one-character separator, over character
lists: splits into all substrings separated by `c`; the separator
occurrences themselves are dropped.  `splitOnChar c [] = [[]]`, matching
Go, whose `Split` of the empty string is a singleton empty field. -/
def splitOnChar (c : Char) : List Char → List (List Char)
  | [] => [[]]
  | x :: xs =>
    if x = c then [] :: splitOnChar c xs
    else
      match splitOnChar c xs with
      | [] => [[x]]
      | h :: t => (x :: h) :: t

/-- Go `strings.Split s (String.mk [c])` at `String` level. -/
def goSplit (s : String) (c : Char) : List String :=
  (splitOnChar c s.data).map String.mk

/-- Go `strings.TrimPrefix s pfx`: returns `s` without the leading
`pfx`; if `s` does not start with `pfx`, `s` is returned unchanged. -/
def trimPrefixOnce (s pfx : String) : String :=
  if pfx.data.isPrefixOf s.data then String.mk (s.data.drop pfx.data.length) else s

/-- The writer configuration of `OrgWriter` (`org.go`): the tag
alignment column (`TagsColumn`, a Go `int`) and the current indentation
prefix.  The accumulating `strings.Builder` is modelled by the return
values of the write functions; `emptyClone` is implicit in that style
(an isolated sub-render is just a recursive call whose result string the
caller incorporates explicitly). -/
structure OrgWriter where
  TagsColumn : Int
  indent : String
deriving Repr, DecidableEq

/-- `NewOrgWriter` (`org.go`): tags column 77, empty indentation. -/
def NewOrgWriter : OrgWriter :=
  { TagsColumn := 77, indent := "" }

/-- The node variants consumed by the writer (the `case` arms of
`writeNodes` in `org.go`), plus `null` (a nil interface value in a node
sequence) and `bad` (a value outside the known variant set, carrying its
`%#v` representation).  A `FootnoteLink`'s `Definition` field is a
possibly-nil pointer to a `FootnoteDefinition`, of which the writer only
reads `Children`; it is modelled as `Option (List Node)`. -/
inductive Node where
  | comment (content : String)
  | keyword (key value : String)
  | nodeWithMeta (caption : List (List Node)) (htmlAttributes : List (List String)) (node : Node)
  | headline (lvl : Nat) (status priority : String) (title : List Node)
      (tags : List String) (children : List Node)
  | block (name : String) (parameters : List String) (children : List Node)
  | footnoteDefinition (name : String) (isInline : Bool) (children : List Node)
  | list (items : List Node)
  | listItem (bullet : String) (children : List Node)
  | table (header : Node) (rows : List Node)
  | tableHeader (columns : List (List Node)) (separator : Node)
  | tableRow (columns : List (List Node))
  | tableSeparator (content : String)
  | paragraph (children : List Node)
  | horizontalRule
  | text (content : String)
  | emphasis (kind : String) (content : List Node)
  | lineBreak (count : Nat)
  | explicitLineBreak
  | regularLink (url : String) (autoLink : Bool) (description : Option (List Node))
  | footnoteLink (name : String) (definition : Option (List Node))
  | null
  | bad (goRepr : String)
deriving Repr

/-- The fixed emphasis border table `emphasisOrgBorders` (`org.go`):
kind string to left/right border pair; `none` models absence from the
Go map. -/
def emphasisOrgBorders (kind : String) : Option (String × String) :=
  if kind = "_" then some ("_", "_")
  else if kind = "*" then some ("*", "*")
  else if kind = "/" then some ("/", "/")
  else if kind = "+" then some ("+", "+")
  else if kind = "~" then some ("~", "~")
  else if kind = "=" then some ("=", "=")
  else if kind = "_\x7b\x7d" then some ("_\x7b", "\x7d")
  else if kind = "^\x7b\x7d" then some ("^\x7b", "\x7d")
  else none

/-- Modelled from the spec: `isRawTextBlock` is not under `src/`; the
spec describes a fixed raw-block-kind membership set ("verbatim content,
e.g. source/example blocks"), modelled as the source and example block
names. -/
def isRawTextBlock (name : String) : Bool :=
  name = "SRC" || name = "EXAMPLE"

/-- Modelled from the spec: `isEmptyLineParagraph` is not under `src/`;
the spec calls it the "empty-line paragraph" sentinel, modelled as a
Paragraph with no children. -/
def isEmptyLineParagraph (n : Node) : Bool :=
  match n with
  | .paragraph [] => true
  | _ => false

/-- The inner attribute loop of `writeNodeWithMeta` (`org.go`): walks
the flat key/value list two at a time (a trailing unpaired entry is
skipped, as the Go loop condition `i < len(attributes)-1` does); a value
containing a tab or space is emitted double-quoted. -/
def writeAttributePairs : List String → String
  | k :: v :: rest =>
    k ++ " " ++ (if v.any (fun ch => ch == '\t' || ch == ' ') then "\"" ++ v ++ "\"" else v)
      ++ writeAttributePairs rest
  | _ => ""

/-- The `HTMLAttributes` loop of `writeNodeWithMeta` (`org.go`): one
`#+ATTR_HTML: ` line per attribute list. -/
def writeHTMLAttributes : List (List String) → String
  | [] => ""
  | attributes :: rest =>
    "#+ATTR_HTML: " ++ writeAttributePairs attributes ++ "\n" ++ writeHTMLAttributes rest

/-- The raw-content loop of `writeBlock` (`org.go`): each line of the
split content is emitted with the indentation prefix and a newline. -/
def writeRawLines (indent : String) : List String → String
  | [] => ""
  | line :: rest => indent ++ line ++ "\n" ++ writeRawLines indent rest

/-- The isolated title render of `writeHeadline` (`org.go`): stars,
optional space-prefixed status, optional space-prefixed bracketed
priority, a space, then the rendered title nodes (`titleStr`). -/
def headlineTitleLine (lvl : Nat) (status priority titleStr : String) : String :=
  goRepeat "*" lvl
    ++ (if status = "" then "" else " " ++ status)
    ++ (if priority = "" then "" else " [#" ++ priority ++ "]")
    ++ " " ++ titleStr

mutual

/-- `writeNodes` (`org.go`): dispatches each node of the sequence in
order, concatenating the writes; the first panic aborts the render. -/
def writeNodes (w : OrgWriter) : List Node → Except String String
  | [] => .ok ""
  | n :: ns => do
    let s ← writeNode w n
    let rest ← writeNodes w ns
    .ok (s ++ rest)

/-- The per-variant dispatch of `writeNodes` (`org.go`), with each
`write*` method's body inlined into its arm. -/
def writeNode (w : OrgWriter) : Node → Except String String
  | .comment content => .ok (w.indent ++ "#" ++ content)
  | .keyword key value => .ok (w.indent ++ "#+" ++ key ++ ": " ++ value ++ "\n")
  | .nodeWithMeta caption htmlAttributes node => do
    let caps ← writeCaptions w caption
    let s ← writeNode w node
    .ok (caps ++ writeHTMLAttributes htmlAttributes ++ s)
  | .headline lvl status priority title tags children => do
    let titleStr ← writeNodes w title
    let hString := headlineTitleLine lvl status priority titleStr
    let head :=
      if tags = [] then hString
      else
        let hString2 := hString ++ " "
        let tString := ":" ++ String.intercalate ":" tags ++ ":"
        let n : Int := w.TagsColumn - tString.length - hString2.length
        if n > 0 then hString2 ++ goRepeat " " n.toNat ++ tString
        else hString2 ++ tString
    let body ← writeNodes w children
    .ok (head ++ "\n" ++ (if children.isEmpty then "" else w.indent) ++ body)
  | .block name parameters children => do
    let header := w.indent ++ "#+BEGIN_" ++ name
      ++ (if parameters = [] then "" else " " ++ String.intercalate " " parameters) ++ "\n"
    let body ←
      if isRawTextBlock name then
        match children with
        | [] => .error "runtime error: index out of range"
        | .text content :: _ =>
          .ok (writeRawLines w.indent (goSplit content '\n'))
        | _ :: _ => .error "interface conversion: Node is not Text"
      else writeNodes w children
    .ok (header ++ body ++ w.indent ++ "#+END_" ++ name ++ "\n")
  | .footnoteDefinition name _isInline children => do
    let sep :=
      if (match children with | first :: _ => isEmptyLineParagraph first | [] => false)
      then "" else " "
    let body ← writeNodes w children
    .ok ("[fn:" ++ name ++ "]" ++ sep ++ body)
  | .list items => writeNodes w items
  | .listItem bullet children => do
    let liIndent := w.indent ++ goRepeat " " (bullet.length + 1)
    let liStr ← writeNodes { w with indent := liIndent } children
    .ok (w.indent ++ bullet ++ " " ++ trimPrefixOnce liStr liIndent)
  | .table header rows => do
    let h ← writeNode w header
    let r ← writeNodes w rows
    .ok (h ++ r)
  | .tableHeader columns separator => do
    let cols ← writeColumnsLoop w columns
    let sep ← writeNode w separator
    .ok (w.indent ++ "| " ++ cols ++ "\n" ++ sep)
  | .tableRow columns => do
    let cols ← writeColumnsLoop w columns
    .ok (w.indent ++ "| " ++ cols ++ "\n")
  | .tableSeparator content => .ok (w.indent ++ content ++ "\n")
  | .paragraph children => do
    let s ← writeNodes w children
    .ok (s ++ "\n")
  | .horizontalRule => .ok (w.indent ++ "-----\n")
  | .text content => .ok content
  | .emphasis kind content =>
    match emphasisOrgBorders kind with
    | none => .error ("bad emphasis " ++ kind)
    | some borders => do
      let s ← writeNodes w content
      .ok (borders.1 ++ s ++ borders.2)
  | .lineBreak count => .ok (goRepeat ("\n" ++ w.indent) count)
  | .explicitLineBreak => .ok ("\\\\" ++ "\n" ++ w.indent)
  | .regularLink url autoLink description =>
    if autoLink then .ok url
    else
      match description with
      | none => .ok ("[[" ++ url ++ "]]")
      | some ds => do
        let d ← writeNodes w ds
        .ok ("[[" ++ url ++ "][" ++ d ++ "]]")
  | .footnoteLink name definition =>
    match definition with
    | none => .ok ("[fn:" ++ name ++ "]")
    | some defChildren =>
      match defChildren with
      | [] => .error "runtime error: index out of range"
      | first :: _ =>
        match first with
        | .paragraph pChildren => do
          let s ← writeNodes w pChildren
          .ok ("[fn:" ++ name ++ ":" ++ s ++ "]")
        | _ => .error "interface conversion: Node is not Paragraph"
  | .null => .ok ""
  | .bad goRepr => .error ("bad node " ++ goRepr)

/-- The column loop of `writeTableColumns` (`org.go`): each column's
inline nodes, then " |", then — if the column is not the last — a single
space. -/
def writeColumnsLoop (w : OrgWriter) : List (List Node) → Except String String
  | [] => .ok ""
  | c :: rest => do
    let s ← writeNodes w c
    let r ← writeColumnsLoop w rest
    .ok (s ++ " |" ++ (if rest.isEmpty then "" else " ") ++ r)

/-- The `Caption` loop of `writeNodeWithMeta` (`org.go`): one
`#+CAPTION: ` line per caption node sequence. -/
def writeCaptions (w : OrgWriter) : List (List Node) → Except String String
  | [] => .ok ""
  | ns :: rest => do
    let s ← writeNodes w ns
    let r ← writeCaptions w rest
    .ok ("#+CAPTION: " ++ s ++ "\n" ++ r)

end

/-- The `FootnoteDefinition` entity of the footnote table (name,
inline-or-block flag, children). -/
structure FootnoteDefinition where
  Name : String
  Inline : Bool
  Children : List Node
deriving Repr

/-- The document's footnote table: section title and ordered definition
sequence. -/
structure Footnotes where
  Title : String
  Definitions : List FootnoteDefinition
deriving Repr

/-- Modelled from the spec: `Footnotes.Ordered` is not under `src/`;
per the spec the writer "only consumes an already-built, ordered
footnote table", so `Ordered` returns the table's definitions in table
order. -/
def Footnotes.Ordered (fs : Footnotes) : List FootnoteDefinition :=
  fs.Definitions

/-- A table entry as the node value passed to `writeNodes` by
`writeFootnotes`. -/
def FootnoteDefinition.toNode (d : FootnoteDefinition) : Node :=
  .footnoteDefinition d.Name d.Inline d.Children

/-- The definition loop of `writeFootnotes` (`org.go`): each definition
of the ordered table is dispatched unless its `Inline` flag is set. -/
def writeFootnoteLoop (w : OrgWriter) : List FootnoteDefinition → Except String String
  | [] => .ok ""
  | d :: ds => do
    let s ← if d.Inline then pure "" else writeNode w d.toNode
    let r ← writeFootnoteLoop w ds
    .ok (s ++ r)

/-- `writeFootnotes` (`org.go`): the document post-pass; nothing when
the table has no definitions, otherwise a level-1 headline line with the
table's title followed by the non-inline definitions in table order. -/
def writeFootnotes (w : OrgWriter) (fs : Footnotes) : Except String String :=
  if fs.Definitions.isEmpty then .ok ""
  else do
    let body ← writeFootnoteLoop w fs.Ordered
    .ok ("* " ++ fs.Title ++ "\n" ++ body)

example : writeNode { TagsColumn := 10, indent := "" }
    (.headline 1 "" "" [.text "Foo"] ["a", "b"] []) = .ok "* Foo :a:b:\n" := rfl

example : writeNode NewOrgWriter
    (.listItem "-" [.paragraph [.text "line1", .lineBreak 1, .text "line2"]])
    = .ok "- line1\n  line2\n" := rfl

example : writeNode NewOrgWriter
    (.tableRow [[.text "a"], [.text "bb"]]) = .ok "| a | bb |\n" := rfl

/-! ### Helper lemmas -/

theorem mbind_ok {α β : Type} (a : α) (f : α → Except String β) :
    (Except.ok a >>= f : Except String β) = f a := rfl

theorem mbind_error {α β : Type} (e : String) (f : α → Except String β) :
    (Except.error e >>= f : Except String β) = Except.error e := rfl

theorem goRepeat_succ (s : String) (n : Nat) :
    goRepeat s (n + 1) = s ++ goRepeat s n := rfl

theorem length_goRepeat_space (n : Nat) : (goRepeat " " n).length = n := by
  induction n with
  | zero => rfl
  | succ k ih =>
    rw [goRepeat_succ, String.length_append, ih]
    have h1 : (" ").length = 1 := rfl
    omega

theorem writeNodes_nil (w : OrgWriter) : writeNodes w [] = .ok "" := rfl

theorem writeNodes_cons (w : OrgWriter) (n : Node) (ns : List Node) :
    writeNodes w (n :: ns) =
      (writeNode w n >>= fun s => writeNodes w ns >>= fun rest => .ok (s ++ rest)) := rfl

theorem writeNodes_ok_append (w : OrgWriter) (xs ys : List Node) (s : String)
    (h : writeNodes w xs = .ok s) :
    writeNodes w (xs ++ ys) = (writeNodes w ys).map (fun t => s ++ t) := by
  induction xs generalizing s with
  | nil =>
    rw [writeNodes_nil] at h
    cases h
    cases hys : writeNodes w ys <;>
      simp [List.nil_append, hys, Except.map, String.empty_append]
  | cons n ns ih =>
    rw [writeNodes_cons] at h
    cases hn : writeNode w n with
    | error e => rw [hn, mbind_error] at h; cases h
    | ok s1 =>
      rw [hn, mbind_ok] at h
      cases hns : writeNodes w ns with
      | error e => rw [hns, mbind_error] at h; cases h
      | ok rest =>
        rw [hns, mbind_ok] at h
        cases h
        rw [List.cons_append, writeNodes_cons, hn, mbind_ok, ih rest hns]
        cases hys : writeNodes w ys <;>
          simp [hys, Except.map, mbind_ok, mbind_error, String.append_assoc]

/-- C7: in the dispatcher, a node value outside the known variant set
aborts the render with a diagnostic naming the offending value (it is
never silently skipped), while a nil node in a sequence is a no-op: it
contributes nothing to the output and does not abort. -/
theorem writeNodes_bad_aborts_null_noop (w : OrgWriter) (xs ys : List Node)
    (r s : String) (hxs : writeNodes w xs = .ok s) :
    writeNodes w (xs ++ Node.bad r :: ys) = .error ("bad node " ++ r)
    ∧ writeNodes w (xs ++ Node.null :: ys) = writeNodes w (xs ++ ys) := by
  constructor
  · rw [writeNodes_ok_append w xs (Node.bad r :: ys) s hxs, writeNodes_cons]
    simp [writeNode, mbind_error, Except.map]
  · rw [writeNodes_ok_append w xs (Node.null :: ys) s hxs,
      writeNodes_ok_append w xs ys s hxs, writeNodes_cons]
    simp only [writeNode, mbind_ok]
    cases hys : writeNodes w ys <;>
      simp [hys, mbind_ok, mbind_error, Except.map, String.empty_append]

theorem writeNodes_bad_aborts_null_noop_witness :
    writeNodes NewOrgWriter ([Node.text "x"] ++ Node.bad "org.UnknownNode" :: [Node.text "y"])
        = .error "bad node org.UnknownNode"
    ∧ writeNodes NewOrgWriter ([Node.text "x"] ++ Node.null :: [Node.text "y"])
        = writeNodes NewOrgWriter ([Node.text "x"] ++ [Node.text "y"]) :=
  writeNodes_bad_aborts_null_noop NewOrgWriter [Node.text "x"] [Node.text "y"]
    "org.UnknownNode" "x" rfl

theorem trimPrefixOnce_append (pfx s : String) :
    trimPrefixOnce (pfx ++ s) pfx = s := by
  have hpre : pfx.data.isPrefixOf (pfx.data ++ s.data) = true := by
    simp [ List.isPrefixOf_iff_prefix]
  simp only [trimPrefixOnce, String.data_append, hpre, if_true, List.drop_left]

theorem trimPrefixOnce_unchanged (s pfx : String)
    (h : pfx.data.isPrefixOf s.data = false) : trimPrefixOnce s pfx = s := by
  simp [trimPrefixOnce, h]

/-- C5: a list item writes the indentation prefix, the bullet and one
space, renders its children into an isolated context whose prefix is the
current prefix extended by `len(bullet)+1` spaces, and strips exactly
one leading occurrence of that child prefix from the sub-render; a
bullet "-" with a two-line child paragraph puts the first line right
after "- " and indents the second line by exactly two spaces. -/
theorem writeListItem_one_prefix_stripped (w : OrgWriter) (bullet : String)
    (children : List Node) (out : String)
    (hchild : writeNodes { w with indent := w.indent ++ goRepeat " " (bullet.length + 1) }
        children = .ok out) :
    writeNode w (.listItem bullet children)
        = .ok (w.indent ++ bullet ++ " "
            ++ trimPrefixOnce out (w.indent ++ goRepeat " " (bullet.length + 1)))
    ∧ (∀ t, trimPrefixOnce ((w.indent ++ goRepeat " " (bullet.length + 1)) ++ t)
          (w.indent ++ goRepeat " " (bullet.length + 1)) = t)
    ∧ writeNode NewOrgWriter
        (.listItem "-" [.paragraph [.text "line1", .lineBreak 1, .text "line2"]])
        = .ok "- line1\n  line2\n" := by
  refine ⟨?_, fun t => trimPrefixOnce_append _ t, rfl⟩
  simp only [writeNode, hchild, mbind_ok]

theorem writeListItem_one_prefix_stripped_witness :
    writeNode NewOrgWriter (Node.listItem "-" [Node.listItem "-" [Node.paragraph [Node.text "a"]]])
        = .ok "- - a\n"
    ∧ trimPrefixOnce ("  " ++ "xyz") "  " = "xyz" := by
  have h := writeListItem_one_prefix_stripped NewOrgWriter "-"
    [Node.listItem "-" [Node.paragraph [Node.text "a"]]] "  - a\n" rfl
  exact ⟨h.1.trans (congrArg Except.ok (by decide)), h.2.1 "xyz"⟩

/-- C10: the prefix strip in the list-item renderer is conditional on
presence: when the isolated sub-render does not begin with the child
indentation prefix, the string is appended entirely unchanged; and never
is more than one leading occurrence of the prefix removed. -/
theorem writeListItem_conditional_strip (w : OrgWriter) (bullet : String)
    (children : List Node) (out : String)
    (hchild : writeNodes { w with indent := w.indent ++ goRepeat " " (bullet.length + 1) }
        children = .ok out)
    (hnp : (w.indent ++ goRepeat " " (bullet.length + 1)).data.isPrefixOf out.data = false) :
    writeNode w (.listItem bullet children) = .ok (w.indent ++ bullet ++ " " ++ out)
    ∧ (∀ t, trimPrefixOnce
          ((w.indent ++ goRepeat " " (bullet.length + 1))
            ++ ((w.indent ++ goRepeat " " (bullet.length + 1)) ++ t))
          (w.indent ++ goRepeat " " (bullet.length + 1))
        = (w.indent ++ goRepeat " " (bullet.length + 1)) ++ t) := by
  constructor
  · simp only [writeNode, hchild, mbind_ok, trimPrefixOnce_unchanged out _ hnp]
  · intro t
    exact trimPrefixOnce_append _ _

theorem writeListItem_conditional_strip_witness :
    writeNode NewOrgWriter
        (Node.listItem "-" [Node.paragraph [Node.text "line1", Node.lineBreak 1, Node.text "line2"]])
        = .ok "- line1\n  line2\n"
    ∧ trimPrefixOnce ("  " ++ ("  " ++ "z")) "  " = "  " ++ "z" := by
  have h := writeListItem_conditional_strip NewOrgWriter "-"
    [Node.paragraph [Node.text "line1", Node.lineBreak 1, Node.text "line2"]]
    "line1\n  line2\n" rfl (by decide)
  exact ⟨h.1.trans (congrArg Except.ok (by decide)), h.2 "z"⟩

/-- C8: an emphasis whose kind is in the fixed border table renders as
left border, rendered content, right border; an emphasis whose kind is
outside the table aborts the render with a diagnostic naming the
offending value, whatever its content. -/
theorem writeEmphasis_border_policy (w : OrgWriter) (kind kind2 : String)
    (content : List Node) (lb rb s : String)
    (hb : emphasisOrgBorders kind = some (lb, rb))
    (hc : writeNodes w content = .ok s)
    (hb2 : emphasisOrgBorders kind2 = none) :
    writeNode w (.emphasis kind content) = .ok (lb ++ s ++ rb)
    ∧ ∀ content2, writeNode w (.emphasis kind2 content2)
        = .error ("bad emphasis " ++ kind2) := by
  constructor
  · simp only [writeNode, hb, hc, mbind_ok]
  · intro content2
    simp only [writeNode, hb2]

theorem writeEmphasis_border_policy_witness :
    writeNode NewOrgWriter (Node.emphasis "*" [Node.text "hi"]) = .ok "*hi*"
    ∧ writeNode NewOrgWriter (Node.emphasis "!?" [Node.text "hi"])
        = .error "bad emphasis !?" := by
  have h := writeEmphasis_border_policy NewOrgWriter "*" "!?" [Node.text "hi"] "*" "*" "hi"
    rfl rfl rfl
  exact ⟨h.1.trans (congrArg Except.ok (by decide)),
    (h.2 [Node.text "hi"]).trans (congrArg Except.error (by decide))⟩

/-- C2 counterexample: a FootnoteLink carrying a Definition with an
empty child sequence satisfies the claimed input contract (its first
child, not being present, is vacuously a Paragraph), yet the renderer
indexes `Definition.Children[0]` unconditionally and aborts. -/
theorem writeFootnoteLink_empty_definition_aborts :
    writeNode NewOrgWriter (Node.footnoteLink "x" (some []))
      = .error "runtime error: index out of range" := rfl

/-- C2 (amended): for a FootnoteLink that either has no Definition, or
has a Definition with at least one child whose first child is a
Paragraph, rendering completes: `[fn:name]` without a definition, and
`[fn:name:content]` with one, where `content` is the rendering of the
definition's first Paragraph child's inline nodes. -/
theorem writeFootnoteLink_renders (w : OrgWriter) (name : String)
    (ps rest : List Node) (s : String)
    (hp : writeNodes w ps = .ok s) :
    writeNode w (.footnoteLink name none) = .ok ("[fn:" ++ name ++ "]")
    ∧ writeNode w (.footnoteLink name (some (.paragraph ps :: rest)))
        = .ok ("[fn:" ++ name ++ ":" ++ s ++ "]") := by
  constructor
  · rfl
  · simp only [writeNode, hp, mbind_ok]

theorem writeFootnoteLink_renders_witness :
    writeNode NewOrgWriter (Node.footnoteLink "a" none) = .ok "[fn:a]"
    ∧ writeNode NewOrgWriter (Node.footnoteLink "a" (some [Node.paragraph [Node.text "t"]]))
        = .ok "[fn:a:t]" := by
  have h := writeFootnoteLink_renders NewOrgWriter "a" [Node.text "t"] [] "t" rfl
  exact ⟨h.1.trans (congrArg Except.ok (by decide)),
    h.2.trans (congrArg Except.ok (by decide))⟩

/-- C9: a footnote definition with no children renders exactly
`[fn:name]` followed by the separating space and nothing else; in
general the separating space is suppressed exactly when the definition
has at least one child and its first child is the empty-line-paragraph
sentinel. -/
theorem writeFootnoteDefinition_separating_space (w : OrgWriter) (name : String)
    (isInline : Bool) (children : List Node) (s : String)
    (hc : writeNodes w children = .ok s) :
    writeNode w (.footnoteDefinition name isInline children)
        = .ok ("[fn:" ++ name ++ "]"
            ++ (if (match children with
                    | first :: _ => isEmptyLineParagraph first
                    | [] => false) then "" else " ")
            ++ s)
    ∧ writeNode w (.footnoteDefinition name isInline [])
        = .ok ("[fn:" ++ name ++ "]" ++ " ") := by
  constructor
  · simp only [writeNode, hc, mbind_ok]
  · simp only [writeNode, writeNodes_nil, mbind_ok]
    rw [String.append_empty]
    simp

theorem writeFootnoteDefinition_separating_space_witness :
    writeNode NewOrgWriter (Node.footnoteDefinition "x" false [Node.paragraph []])
        = .ok "[fn:x]\n"
    ∧ writeNode NewOrgWriter (Node.footnoteDefinition "x" false [])
        = .ok "[fn:x] " := by
  have h := writeFootnoteDefinition_separating_space NewOrgWriter "x" false
    [Node.paragraph []] "\n" rfl
  exact ⟨h.1.trans (congrArg Except.ok (by decide)),
    h.2.trans (congrArg Except.ok (by decide))⟩

theorem writeFootnoteLoop_filter (w : OrgWriter) (ds : List FootnoteDefinition) :
    writeFootnoteLoop w ds
      = writeNodes w ((ds.filter (fun d => !d.Inline)).map FootnoteDefinition.toNode) := by
  induction ds with
  | nil => rfl
  | cons d ds ih =>
    cases hI : d.Inline with
    | true =>
      simp only [writeFootnoteLoop, hI, if_true, List.filter_cons, Bool.not_true,
        Bool.false_eq_true, if_false, ← ih]
      cases hl : writeFootnoteLoop w ds <;>
        simp [hl, mbind_ok, mbind_error, String.empty_append]
    | false =>
      simp only [writeFootnoteLoop, hI, Bool.false_eq_true, if_false, List.filter_cons,
        Bool.not_false, if_true, List.map_cons, writeNodes_cons, ← ih]

/-- C3: the footnote post-pass emits nothing when the footnote table
has no definitions; otherwise it emits a level-1 headline line for the
section title and then renders exactly the definitions not flagged
inline, in table order. -/
theorem writeFootnotes_section (w : OrgWriter) (fs : Footnotes) (s : String)
    (hbody : writeNodes w ((fs.Definitions.filter (fun d => !d.Inline)).map
        FootnoteDefinition.toNode) = .ok s) :
    (fs.Definitions = [] → writeFootnotes w fs = .ok "")
    ∧ (fs.Definitions ≠ [] → writeFootnotes w fs = .ok ("* " ++ fs.Title ++ "\n" ++ s)) := by
  constructor
  · intro h
    simp [writeFootnotes, h]
  · intro h
    have hne : fs.Definitions.isEmpty = false := by
      cases hd : fs.Definitions with
      | nil => exact absurd hd h
      | cons a l => rfl
    simp only [writeFootnotes, hne, Bool.false_eq_true, if_false, Footnotes.Ordered,
      writeFootnoteLoop_filter, hbody, mbind_ok]

theorem writeFootnotes_section_witness :
    writeFootnotes NewOrgWriter ⟨"Footnotes", []⟩ = .ok ""
    ∧ writeFootnotes NewOrgWriter ⟨"Footnotes",
        [⟨"i", true, [Node.paragraph [Node.text "I"]]⟩,
         ⟨"b", false, [Node.paragraph [Node.text "B"]]⟩]⟩
      = .ok "* Footnotes\n[fn:b] B\n" := by
  have h0 := writeFootnotes_section NewOrgWriter ⟨"Footnotes", []⟩ "" rfl
  have h1 := writeFootnotes_section NewOrgWriter ⟨"Footnotes",
      [⟨"i", true, [Node.paragraph [Node.text "I"]]⟩,
       ⟨"b", false, [Node.paragraph [Node.text "B"]]⟩]⟩ "[fn:b] B\n" rfl
  exact ⟨h0.1 rfl, (h1.2 (List.cons_ne_nil _ _)).trans (congrArg Except.ok (by decide))⟩

theorem splitOnChar_ne_nil (c : Char) (l : List Char) : splitOnChar c l ≠ [] := by
  cases l with
  | nil => simp [splitOnChar]
  | cons x xs =>
    simp only [splitOnChar]
    by_cases h : x = c
    · simp [h]
    · simp only [h, if_false]
      cases hs : splitOnChar c xs <;> simp

theorem flatten_splitOnChar (c : Char) (l : List Char) :
    ((splitOnChar c l).map (fun p => p ++ [c])).flatten = l ++ [c] := by
  induction l with
  | nil => simp [splitOnChar]
  | cons x xs ih =>
    by_cases h : x = c
    · subst h
      simp only [splitOnChar, if_true, List.map_cons, List.flatten_cons, List.nil_append,
        ih, List.cons_append, List.singleton_append]
    · obtain ⟨hh, ht, hs⟩ : ∃ hh ht, splitOnChar c xs = hh :: ht := by
        cases hs : splitOnChar c xs with
        | nil => exact absurd hs (splitOnChar_ne_nil c xs)
        | cons a b => exact ⟨a, b, rfl⟩
      rw [hs] at ih
      simp only [List.map_cons, List.flatten_cons] at ih
      simp only [splitOnChar, h, if_false, hs, List.map_cons, List.flatten_cons,
        List.cons_append, List.append_assoc] at ih ⊢
      rw [ih]

theorem writeRawLines_data (pieces : List (List Char)) :
    writeRawLines "" (pieces.map String.mk)
      = String.mk ((pieces.map (fun p => p ++ ['\n'])).flatten) := by
  induction pieces with
  | nil => rfl
  | cons p ps ih =>
    simp only [List.map_cons, writeRawLines, ih, List.flatten_cons]
    apply String.ext
    simp [String.data_append]

theorem writeRawLines_reassembles (content : String) :
    writeRawLines "" (goSplit content '\n') = content ++ "\n" := by
  rw [goSplit, writeRawLines_data, flatten_splitOnChar]
  apply String.ext
  simp [String.data_append]

/-- C4: a block whose name identifies a raw kind renders as the opening
line (with the space-joined parameters when non-empty), then each line
of the sole Text child's content split on newline emitted with the
indentation prefix and a newline — the content is never re-dispatched
as nodes, so with empty indentation the emitted body is exactly the
content followed by a final newline, any embedded "#+END_" substring
copied unchanged — and finally the closing line. -/
theorem writeBlock_raw_verbatim (w : OrgWriter) (name : String)
    (parameters : List String) (content : String)
    (hraw : isRawTextBlock name = true) :
    writeNode w (.block name parameters [.text content])
        = .ok ((w.indent ++ "#+BEGIN_" ++ name
            ++ (if parameters = [] then "" else " " ++ String.intercalate " " parameters)
            ++ "\n")
          ++ writeRawLines w.indent (goSplit content '\n')
          ++ w.indent ++ "#+END_" ++ name ++ "\n")
    ∧ writeRawLines "" (goSplit content '\n') = content ++ "\n" := by
  constructor
  · simp only [writeNode, hraw, if_true, mbind_ok]
  · exact writeRawLines_reassembles content

theorem writeBlock_raw_verbatim_witness :
    writeNode NewOrgWriter (Node.block "SRC" [] [Node.text "a\n#+END_X"])
        = .ok "#+BEGIN_SRC\na\n#+END_X\n#+END_SRC\n"
    ∧ writeRawLines "" (goSplit "a\n#+END_X" '\n') = "a\n#+END_X" ++ "\n" := by
  have h := writeBlock_raw_verbatim NewOrgWriter "SRC" [] "a\n#+END_X" rfl
  exact ⟨h.1.trans (congrArg Except.ok (by decide)), h.2⟩

/-- Per-column rendering: the list of each column's rendered inline
content, in order. -/
def renderEach (w : OrgWriter) : List (List Node) → Except String (List String)
  | [] => .ok []
  | c :: cs => do
    let s ← writeNodes w c
    let r ← renderEach w cs
    .ok (s :: r)

/-- Follows the spec's words (§4.5): each column's rendered content
followed by " |", with a single additional space between consecutive
columns and none after the last. -/
def columnsSpecFormat : List String → String
  | [] => ""
  | [s] => s ++ " |"
  | s :: rest => s ++ " |" ++ " " ++ columnsSpecFormat rest

theorem writeColumnsLoop_spec (w : OrgWriter) (cols : List (List Node)) (ss : List String)
    (h : renderEach w cols = .ok ss) :
    writeColumnsLoop w cols = .ok (columnsSpecFormat ss) := by
  induction cols generalizing ss with
  | nil =>
    simp only [renderEach] at h
    cases h
    rfl
  | cons c cs ih =>
    simp only [renderEach] at h
    cases hc : writeNodes w c with
    | error e => rw [hc, mbind_error] at h; cases h
    | ok s =>
      rw [hc, mbind_ok] at h
      cases hr : renderEach w cs with
      | error e => rw [hr, mbind_error] at h; cases h
      | ok r =>
        rw [hr, mbind_ok] at h
        cases h
        rw [writeColumnsLoop, hc, mbind_ok, ih r hr, mbind_ok]
        cases cs with
        | nil =>
          simp only [renderEach] at hr
          cases hr
          simp [columnsSpecFormat, String.append_empty]
        | cons c2 cs2 =>
          obtain ⟨s2, r2, hrr⟩ : ∃ s2 r2, r = s2 :: r2 := by
            simp only [renderEach] at hr
            cases h2 : writeNodes w c2 with
            | error e => rw [h2, mbind_error] at hr; cases hr
            | ok a =>
              rw [h2, mbind_ok] at hr
              cases h3 : renderEach w cs2 with
              | error e => rw [h3, mbind_error] at hr; cases hr
              | ok b => rw [h3, mbind_ok] at hr; cases hr; exact ⟨a, b, rfl⟩
          subst hrr
          simp [columnsSpecFormat]

/-- C6: a table header or row with a non-empty column sequence renders
as the indentation prefix, "| ", then for each column the rendering of
its inline nodes followed by " |" with a single additional space
between consecutive columns and none after the last, then a newline; a
table separator emits the indentation prefix, its precomputed content
string and a newline, with no recomputation from column widths and no
cell padding. -/
theorem writeTable_columns_spacing (w : OrgWriter) (columns : List (List Node))
    (ss : List String) (_hne : columns ≠ [])
    (hcols : renderEach w columns = .ok ss) :
    writeNode w (.tableRow columns)
        = .ok (w.indent ++ "| " ++ columnsSpecFormat ss ++ "\n")
    ∧ (∀ sepContent, writeNode w (.tableHeader columns (.tableSeparator sepContent))
        = .ok ((w.indent ++ "| " ++ columnsSpecFormat ss ++ "\n")
            ++ (w.indent ++ sepContent ++ "\n")))
    ∧ (∀ content, writeNode w (.tableSeparator content)
        = .ok (w.indent ++ content ++ "\n")) := by
  refine ⟨?_, ?_, fun content => rfl⟩
  · simp only [writeNode, writeColumnsLoop_spec w columns ss hcols, mbind_ok]
  · intro sepContent
    simp only [writeNode, writeColumnsLoop_spec w columns ss hcols, mbind_ok]

theorem writeTable_columns_spacing_witness :
    writeNode NewOrgWriter (Node.tableRow [[Node.text "a"], [Node.text "bb"]])
        = .ok "| a | bb |\n"
    ∧ writeNode NewOrgWriter
        (Node.tableHeader [[Node.text "a"], [Node.text "bb"]] (Node.tableSeparator "|---+----|"))
        = .ok "| a | bb |\n|---+----|\n" := by
  have h := writeTable_columns_spacing NewOrgWriter [[Node.text "a"], [Node.text "bb"]]
    ["a", "bb"] (List.cons_ne_nil _ _) rfl
  exact ⟨h.1.trans (congrArg Except.ok (by decide)),
    (h.2.1 "|---+----|").trans (congrArg Except.ok (by decide))⟩

/-- C1: for a headline with a non-empty tag list, writing `tString` for
the tags joined with ":" and bracketed by leading/trailing ":",
`titleLine` for the isolated title render, and
`pad = TagsColumn - len tString - len titleLine`: when `pad > 0` the
writer emits the title line, `pad` spaces and the tag string — so the
line ends exactly at the alignment column — and otherwise the title
line, a single space, and the tag string with no alignment. -/
theorem writeHeadline_tag_alignment (w : OrgWriter) (lvl : Nat)
    (status priority : String) (title : List Node) (tags : List String)
    (children : List Node) (titleStr body : String) (pad : Int)
    (htags : tags ≠ [])
    (htitle : writeNodes w title = .ok titleStr)
    (hbody : writeNodes w children = .ok body)
    (hpad : pad = w.TagsColumn - (":" ++ String.intercalate ":" tags ++ ":").length
        - (headlineTitleLine lvl status priority titleStr).length) :
    writeNode w (.headline lvl status priority title tags children)
        = .ok ((if 0 < pad
              then headlineTitleLine lvl status priority titleStr
                ++ goRepeat " " pad.toNat ++ (":" ++ String.intercalate ":" tags ++ ":")
              else headlineTitleLine lvl status priority titleStr
                ++ " " ++ (":" ++ String.intercalate ":" tags ++ ":"))
            ++ "\n" ++ (if children.isEmpty then "" else w.indent) ++ body)
    ∧ (0 < pad →
        ((headlineTitleLine lvl status priority titleStr
          ++ goRepeat " " pad.toNat ++ (":" ++ String.intercalate ":" tags ++ ":")).length : Int)
          = w.TagsColumn) := by
  have hsp : (" ").length = 1 := rfl
  constructor
  · simp only [writeNode, htitle, hbody, mbind_ok, if_neg htags]
    congr 2
    have hlen : (headlineTitleLine lvl status priority titleStr ++ " ").length
        = (headlineTitleLine lvl status priority titleStr).length + 1 := by
      rw [String.length_append, hsp]
    rw [hlen]
    by_cases hn : (0 : Int) < w.TagsColumn
        - ((":" ++ String.intercalate ":" tags ++ ":").length : Int)
        - (((headlineTitleLine lvl status priority titleStr).length + 1 : Nat) : Int)
    · rw [if_pos hn, if_pos (by omega : (0 : Int) < pad)]
      have htn : pad.toNat
          = (w.TagsColumn - ((":" ++ String.intercalate ":" tags ++ ":").length : Int)
              - (((headlineTitleLine lvl status priority titleStr).length + 1 : Nat) : Int)).toNat
            + 1 := by omega
      rw [htn, goRepeat_succ]
      simp [String.append_assoc]
    · rw [if_neg hn]
      by_cases hp : (0 : Int) < pad
      · rw [if_pos hp]
        have htn : pad.toNat = 1 := by omega
        rw [htn]
        have h1 : goRepeat " " 1 = " " := by
          rw [goRepeat_succ]
          exact String.append_empty " "
        rw [h1]
      · rw [if_neg hp]
  · intro hp
    rw [String.length_append, String.length_append, length_goRepeat_space]
    omega

theorem writeHeadline_tag_alignment_witness :
    writeNode { TagsColumn := 10, indent := "" }
        (Node.headline 1 "" "" [Node.text "Foo"] ["a", "b"] [])
      = .ok "* Foo :a:b:\n"
    ∧ writeNode { TagsColumn := 20, indent := "" }
        (Node.headline 1 "" "" [Node.text "Foo"] ["a", "b"] [])
      = .ok "* Foo          :a:b:\n" := by
  have h0 := writeHeadline_tag_alignment { TagsColumn := 10, indent := "" } 1 "" ""
    [Node.text "Foo"] ["a", "b"] [] "Foo" "" 0
    (List.cons_ne_nil _ _) rfl rfl (by decide)
  have h1 := writeHeadline_tag_alignment { TagsColumn := 20, indent := "" } 1 "" ""
    [Node.text "Foo"] ["a", "b"] [] "Foo" "" 10
    (List.cons_ne_nil _ _) rfl rfl (by decide)
  exact ⟨h0.1.trans (congrArg Except.ok (by decide)),
    h1.1.trans (congrArg Except.ok (by decide))⟩
